import Mathlib

/-!
Shallow embedding of `add-to-steam.py` (Minecraft Splitscreen Steam shortcut
adder).  Byte strings are modelled as `List Nat` (each element one byte);
Python text strings appear as their UTF-8 byte lists.  Pure functions of the
script become Lean functions; the file write and the asset-download loop
become explicit state passing.
-/

namespace AddToSteam

/-- Tests whether a byte is an ASCII decimal digit (`\d` of the regex). -/
def isDigitByte (b : Nat) : Bool := decide (48 ≤ b ∧ b ≤ 57)

/-- UTF-8 bytes of an ASCII string literal (used for the script's literal
byte strings such as `b'appid'`). -/
def strBytes (s : String) : List Nat := s.toList.map Char.toNat

/-- Fuel-driven helper for `decDigits`; the fuel only forces structural
recursion (so that the kernel can evaluate it) and never runs out when it
exceeds the number being printed. -/
def decDigitsAux : Nat → Nat → List Nat
  | 0, _ => []
  | fuel + 1, n =>
    if n < 10 then [48 + n] else decDigitsAux fuel (n / 10) ++ [48 + n % 10]

/-- Decimal ASCII digits of a natural number: the bytes of Python `str(n)`
for a non-negative `n`. -/
def decDigits (n : Nat) : List Nat := decDigitsAux (n + 1) n

/-- The fuel argument of `decDigitsAux` is irrelevant once it exceeds the
number. -/
theorem decDigitsAux_eq_of_lt :
    ∀ (fuel fuel' n : Nat), n < fuel → n < fuel' →
      decDigitsAux fuel n = decDigitsAux fuel' n := by
  intro fuel
  induction fuel with
  | zero => intro fuel' n h; omega
  | succ f ih =>
    intro fuel' n h h'
    cases fuel' with
    | zero => omega
    | succ f' =>
      by_cases h10 : n < 10
      · simp [decDigitsAux, h10]
      · have hn : n / 10 < n := Nat.div_lt_self (by omega) (by omega)
        have hd : n / 10 < f := by omega
        have hd' : n / 10 < f' := by omega
        simp only [decDigitsAux, if_neg h10]
        rw [ih f' (n / 10) hd hd']

/-- Unfolding equation for `decDigits` with the fuel hidden. -/
theorem decDigits_eq (n : Nat) :
    decDigits n = if n < 10 then [48 + n] else decDigits (n / 10) ++ [48 + n % 10] := by
  by_cases h10 : n < 10
  · simp [decDigits, decDigitsAux, h10]
  · have hd : n / 10 < n := Nat.div_lt_self (by omega) (by omega)
    have h1 : decDigits n = decDigitsAux n (n / 10) ++ [48 + n % 10] := by
      show decDigitsAux (n + 1) n = _
      simp only [decDigitsAux, if_neg h10]
    rw [h1, if_neg h10,
      decDigitsAux_eq_of_lt n (n / 10 + 1) (n / 10) hd (Nat.lt_succ_self _)]
    rfl

/-- Numeric value of a list of ASCII digit bytes: Python `int(s)` for a
digit string `s`. -/
def digitsVal (ds : List Nat) : Nat := ds.foldl (fun a d => 10 * a + (d - 48)) 0

/-- The four bytes of `struct.pack('<I', n)`: `n` as a 32-bit little-endian
unsigned integer. -/
def packLE32 (n : Nat) : List Nat :=
  [n % 256, n / 256 % 256, n / 65536 % 256, n / 16777216 % 256]

/-- Dropping a prefix never lengthens a list (termination helper). -/
theorem dropWhile_length_le (p : Nat → Bool) (l : List Nat) :
    (l.dropWhile p).length ≤ l.length := by
  induction l with
  | nil => simp
  | cons a t ih =>
    by_cases h : p a
    · simp only [List.dropWhile_cons, if_pos h, List.length_cons]
      omega
    · simp [List.dropWhile_cons, h]

/-- Fuel-driven helper for the regex scan; the fuel only forces structural
recursion and is irrelevant once it reaches the buffer length. -/
def reFindallAux : Nat → List Nat → List (List Nat)
  | 0, _ => []
  | _ + 1, [] => []
  | fuel + 1, b :: rest =>
    if b = 0 ∧ rest.takeWhile isDigitByte ≠ [] ∧
        (rest.dropWhile isDigitByte).head? = some 0 then
      rest.takeWhile isDigitByte :: reFindallAux fuel (rest.dropWhile isDigitByte).tail
    else
      reFindallAux fuel rest

/-- Embedding of `re.findall(rb'\x00(\d+)\x00', data)`: left-to-right,
non-overlapping matches of a null byte, a maximal nonempty run of ASCII
digit bytes, and a null byte; each returned element is the digit run of one
match.  After a match, scanning resumes after the closing null byte. -/
def reFindall (data : List Nat) : List (List Nat) := reFindallAux data.length data

/-- The fuel argument of `reFindallAux` is irrelevant once it reaches the
buffer length. -/
theorem reFindallAux_eq_of_le :
    ∀ (fuel fuel' : Nat) (l : List Nat), l.length ≤ fuel → l.length ≤ fuel' →
      reFindallAux fuel l = reFindallAux fuel' l := by
  intro fuel
  induction fuel with
  | zero =>
    intro fuel' l h h'
    have : l = [] := by
      cases l with
      | nil => rfl
      | cons a t => simp at h
    subst this
    cases fuel' <;> rfl
  | succ f ih =>
    intro fuel' l h h'
    cases l with
    | nil => cases fuel' <;> rfl
    | cons b rest =>
      cases fuel' with
      | zero => simp at h'
      | succ f' =>
        have hr : rest.length ≤ f := by simp at h; omega
        have hr' : rest.length ≤ f' := by simp at h'; omega
        have ht : (rest.dropWhile isDigitByte).tail.length ≤ rest.length := by
          have h1 : (rest.dropWhile isDigitByte).length ≤ rest.length :=
            dropWhile_length_le isDigitByte rest
          have h2 : (rest.dropWhile isDigitByte).tail.length =
              (rest.dropWhile isDigitByte).length - 1 := List.length_tail _
          omega
        by_cases hc : b = 0 ∧ rest.takeWhile isDigitByte ≠ [] ∧
            (rest.dropWhile isDigitByte).head? = some 0
        · simp only [reFindallAux, if_pos hc]
          rw [ih f' (rest.dropWhile isDigitByte).tail (le_trans ht hr) (le_trans ht hr')]
        · simp only [reFindallAux, if_neg hc]
          rw [ih f' rest hr hr']

/-- Unfolding equation for `reFindall` on a nonempty buffer. -/
theorem reFindall_cons (b : Nat) (rest : List Nat) :
    reFindall (b :: rest) =
      if b = 0 ∧ rest.takeWhile isDigitByte ≠ [] ∧
          (rest.dropWhile isDigitByte).head? = some 0 then
        rest.takeWhile isDigitByte :: reFindall (rest.dropWhile isDigitByte).tail
      else
        reFindall rest := by
  have ht : (rest.dropWhile isDigitByte).tail.length ≤ rest.length := by
    have h1 : (rest.dropWhile isDigitByte).length ≤ rest.length :=
      dropWhile_length_le isDigitByte rest
    have h2 : (rest.dropWhile isDigitByte).tail.length =
        (rest.dropWhile isDigitByte).length - 1 := List.length_tail _
    omega
  by_cases hc : b = 0 ∧ rest.takeWhile isDigitByte ≠ [] ∧
      (rest.dropWhile isDigitByte).head? = some 0
  · simp only [reFindall, List.length_cons, reFindallAux, if_pos hc]
    rw [reFindallAux_eq_of_le rest.length (rest.dropWhile isDigitByte).tail.length
      (rest.dropWhile isDigitByte).tail ht le_rfl]
  · simp only [reFindall, List.length_cons, reFindallAux, if_neg hc]

/-- Digit bytes are never null. -/
theorem digit_ne_zero (b : Nat) (h : isDigitByte b = true) : b ≠ 0 := by
  simp [isDigitByte] at h
  omega

/-- Scanning skips a leading byte that is not null. -/
theorem reFindall_cons_ne (b : Nat) (rest : List Nat) (h : b ≠ 0) :
    reFindall (b :: rest) = reFindall rest := by
  rw [reFindall_cons, if_neg]
  rintro ⟨h0, -, -⟩
  exact h h0

/-- Scanning skips a null byte that is not followed by a digit. -/
theorem reFindall_zero_tw_nil (rest : List Nat)
    (h : rest.takeWhile isDigitByte = []) :
    reFindall (0 :: rest) = reFindall rest := by
  rw [reFindall_cons, if_neg]
  rintro ⟨-, hne, -⟩
  exact hne h

/-- Scanning skips any run of non-null bytes. -/
theorem reFindall_skip (xs ys : List Nat) (h : ∀ b ∈ xs, b ≠ 0) :
    reFindall (xs ++ ys) = reFindall ys := by
  induction xs with
  | nil => simp
  | cons a t ih =>
    rw [List.cons_append, reFindall_cons_ne a (t ++ ys) (h a (by simp))]
    exact ih (fun b hb => h b (by simp [hb]))

/-- `takeWhile`/`dropWhile` computation across an all-digit block followed by
a non-digit byte. -/
theorem takeWhile_dropWhile_digits (ds : List Nat) (c : Nat) (r : List Nat)
    (hd : ∀ b ∈ ds, isDigitByte b = true) (hc : isDigitByte c = false) :
    (ds ++ c :: r).takeWhile isDigitByte = ds ∧
    (ds ++ c :: r).dropWhile isDigitByte = c :: r := by
  induction ds with
  | nil => simp [List.takeWhile_cons, List.dropWhile_cons, hc]
  | cons a t ih =>
    have ha : isDigitByte a = true := hd a (by simp)
    obtain ⟨h1, h2⟩ := ih (fun b hb => hd b (by simp [hb]))
    constructor
    · rw [List.cons_append, List.takeWhile_cons, if_pos ha, h1]
    · rw [List.cons_append, List.dropWhile_cons, if_pos ha, h2]

/-- A null byte followed by a nonempty digit run and a null byte is one
match; scanning resumes after the closing null. -/
theorem reFindall_match (ds r3 : List Nat) (hne : ds ≠ [])
    (hd : ∀ b ∈ ds, isDigitByte b = true) :
    reFindall (0 :: (ds ++ 0 :: r3)) = ds :: reFindall r3 := by
  obtain ⟨htw, hdw⟩ := takeWhile_dropWhile_digits ds 0 r3 hd (by decide)
  rw [reFindall_cons, if_pos ⟨rfl, by rw [htw]; exact hne, by rw [hdw]; rfl⟩,
    htw, hdw]
  rfl

/-- A null byte followed by a digit run that is terminated by a non-null,
non-digit byte is not a match; the scan continues at the terminating byte. -/
theorem reFindall_nomatch_run (ds : List Nat) (c : Nat) (r : List Nat)
    (hd : ∀ b ∈ ds, isDigitByte b = true) (hc0 : c ≠ 0)
    (hcd : isDigitByte c = false) :
    reFindall (0 :: (ds ++ c :: r)) = reFindall (c :: r) := by
  obtain ⟨htw, hdw⟩ := takeWhile_dropWhile_digits ds c r hd hcd
  rw [reFindall_cons, if_neg]
  · exact reFindall_skip ds (c :: r) (fun b hb => digit_ne_zero b (hd b hb))
  · rintro ⟨-, -, hh⟩
    rw [hdw] at hh
    simp at hh
    exact hc0 hh

/-- The first byte the `dropWhile` keeps fails the predicate. -/
theorem head_dropWhile_false (p : Nat → Bool) :
    ∀ (l : List Nat) (d : Nat) (t : List Nat), l.dropWhile p = d :: t → p d = false := by
  intro l
  induction l with
  | nil => intro d t h; simp [List.dropWhile] at h
  | cons a l ih =>
    intro d t h
    by_cases hp : p a
    · rw [List.dropWhile_cons, if_pos hp] at h
      exact ih d t h
    · rw [List.dropWhile_cons, if_neg hp] at h
      injection h with h1 h2
      subst h1
      simpa using hp

/-- A null-delimited field value contributes no match when it contains no
null byte and is not a nonempty all-digit run; the scan lands on the value's
closing null byte. -/
theorem reFindall_skip_value (v tail : List Nat) (hnf : ∀ b ∈ v, b ≠ 0)
    (hnd : v = [] ∨ ∃ c ∈ v, isDigitByte c = false) :
    reFindall (0 :: (v ++ 0 :: tail)) = reFindall (0 :: tail) := by
  rcases hnd with rfl | ⟨c, hc, hcd⟩
  · rw [List.nil_append]
    exact reFindall_zero_tw_nil (0 :: tail) (by simp [List.takeWhile_cons, isDigitByte])
  · obtain ⟨d, v', hdv⟩ : ∃ d v', v.dropWhile isDigitByte = d :: v' := by
      cases h : v.dropWhile isDigitByte with
      | nil =>
        rw [List.dropWhile_eq_nil_iff] at h
        rw [h c hc] at hcd
        cases hcd
      | cons d v' => exact ⟨d, v', rfl⟩
    have hv : v = v.takeWhile isDigitByte ++ d :: v' := by
      rw [← hdv, List.takeWhile_append_dropWhile]
    have htwd : ∀ b ∈ v.takeWhile isDigitByte, isDigitByte b = true :=
      fun b hb => List.mem_takeWhile_imp hb
    have hdnd : isDigitByte d = false := head_dropWhile_false isDigitByte v d v' hdv
    have hdmem : d ∈ v := by rw [hv]; simp
    have hd0 : d ≠ 0 := hnf d hdmem
    have hassoc : v ++ 0 :: tail =
        v.takeWhile isDigitByte ++ d :: (v' ++ 0 :: tail) := by
      conv_lhs => rw [hv]
      simp [List.append_assoc]
    rw [hassoc,
      reFindall_nomatch_run (v.takeWhile isDigitByte) d (v' ++ 0 :: tail) htwd hd0 hdnd,
      reFindall_cons_ne d (v' ++ 0 :: tail) hd0,
      reFindall_skip v' (0 :: tail) (fun b hb => hnf b (by rw [hv]; simp [hb]))]

/-- A decimal representation is never empty. -/
theorem decDigits_ne_nil (n : Nat) : decDigits n ≠ [] := by
  rw [decDigits_eq]
  by_cases h : n < 10 <;> simp [h]

/-- Every byte of a decimal representation is an ASCII digit. -/
theorem decDigits_all_digit (n : Nat) : ∀ b ∈ decDigits n, isDigitByte b = true := by
  induction n using Nat.strong_induction_on with
  | _ n ih =>
    rw [decDigits_eq]
    by_cases h : n < 10
    · simp only [if_pos h, List.mem_singleton]
      rintro b rfl
      simp [isDigitByte]
      omega
    · simp only [if_neg h, List.mem_append, List.mem_singleton]
      rintro b (hb | rfl)
      · exact ih (n / 10) (Nat.div_lt_self (by omega) (by omega)) b hb
      · have : n % 10 < 10 := Nat.mod_lt n (by omega)
        simp [isDigitByte]
        omega

/-- `int` inverts `str`: parsing the decimal representation of `n` yields `n`. -/
theorem digitsVal_decDigits (n : Nat) : digitsVal (decDigits n) = n := by
  induction n using Nat.strong_induction_on with
  | _ n ih =>
    rw [decDigits_eq]
    by_cases h : n < 10
    · simp [if_pos h, digitsVal]
    · have hd : n / 10 < n := Nat.div_lt_self (by omega) (by omega)
      have hmod : n % 10 < 10 := Nat.mod_lt n (by omega)
      simp only [if_neg h, digitsVal, List.foldl_append, List.foldl_cons, List.foldl_nil]
      have := ih (n / 10) hd
      simp only [digitsVal] at this
      rw [this]
      omega

/-- The trailing byte of the `appid` field value cannot match: it carries
the identifier's set bit 31, so it is at least 128, hence neither null nor a
digit.  Scanning the rest of the four little-endian bytes reaches the byte
after the field regardless of their values. -/
theorem reFindall_after_le3 (b3 : Nat) (xs : List Nat) (h3 : 128 ≤ b3) :
    reFindall (b3 :: 1 :: xs) = reFindall xs := by
  rw [reFindall_cons_ne b3 (1 :: xs) (by omega),
    reFindall_cons_ne 1 xs (by omega)]

/-- Helper: scanning from a null byte directly before the high little-endian
byte finds nothing. -/
theorem reFindall_after_le3_zero (b3 : Nat) (xs : List Nat) (h3 : 128 ≤ b3) :
    reFindall (0 :: b3 :: 1 :: xs) = reFindall xs := by
  have hb3d : isDigitByte b3 = false := by simp [isDigitByte]; omega
  rw [reFindall_zero_tw_nil (b3 :: 1 :: xs) (by simp [List.takeWhile_cons, hb3d])]
  exact reFindall_after_le3 b3 xs h3

/-- Helper: scanning from the third little-endian byte finds nothing. -/
theorem reFindall_after_le2 (b2 b3 : Nat) (xs : List Nat) (h3 : 128 ≤ b3) :
    reFindall (b2 :: b3 :: 1 :: xs) = reFindall xs := by
  by_cases hz : b2 = 0
  · subst hz
    exact reFindall_after_le3_zero b3 xs h3
  · rw [reFindall_cons_ne b2 (b3 :: 1 :: xs) hz]
    exact reFindall_after_le3 b3 xs h3

/-- Helper: scanning from a null byte before the third little-endian byte
finds nothing. -/
theorem reFindall_after_le2_zero (b2 b3 : Nat) (xs : List Nat) (h3 : 128 ≤ b3) :
    reFindall (0 :: b2 :: b3 :: 1 :: xs) = reFindall xs := by
  have hb30 : b3 ≠ 0 := by omega
  have hb3d : isDigitByte b3 = false := by simp [isDigitByte]; omega
  by_cases hd2 : isDigitByte b2 = true
  · have := reFindall_nomatch_run [b2] b3 (1 :: xs)
      (by intro b hb; simp at hb; subst hb; exact hd2) hb30 hb3d
    simp only [List.cons_append, List.nil_append] at this
    rw [this]
    exact reFindall_after_le3 b3 xs h3
  · rw [reFindall_zero_tw_nil (b2 :: b3 :: 1 :: xs)
      (by simp [List.takeWhile_cons, (Bool.not_eq_true _).mp hd2])]
    exact reFindall_after_le2 b2 b3 xs h3

/-- Helper: scanning from the second little-endian byte finds nothing. -/
theorem reFindall_after_le1 (b1 b2 b3 : Nat) (xs : List Nat) (h3 : 128 ≤ b3) :
    reFindall (b1 :: b2 :: b3 :: 1 :: xs) = reFindall xs := by
  by_cases hz : b1 = 0
  · subst hz
    exact reFindall_after_le2_zero b2 b3 xs h3
  · rw [reFindall_cons_ne b1 (b2 :: b3 :: 1 :: xs) hz]
    exact reFindall_after_le2 b2 b3 xs h3

/-- Helper: scanning from a null byte before the second little-endian byte
finds nothing, provided that byte is not a digit immediately followed by a
null third byte. -/
theorem reFindall_after_le1_zero (b1 b2 b3 : Nat) (xs : List Nat) (h3 : 128 ≤ b3)
    (h12 : ¬(isDigitByte b1 = true ∧ b2 = 0)) :
    reFindall (0 :: b1 :: b2 :: b3 :: 1 :: xs) = reFindall xs := by
  have hb30 : b3 ≠ 0 := by omega
  have hb3d : isDigitByte b3 = false := by simp [isDigitByte]; omega
  by_cases hd1 : isDigitByte b1 = true
  · have hz2 : b2 ≠ 0 := fun hz => h12 ⟨hd1, hz⟩
    by_cases hd2 : isDigitByte b2 = true
    · have := reFindall_nomatch_run [b1, b2] b3 (1 :: xs)
        (by intro b hb; simp at hb; rcases hb with rfl | rfl <;> assumption) hb30 hb3d
      simp only [List.cons_append, List.nil_append] at this
      rw [this]
      exact reFindall_after_le3 b3 xs h3
    · have := reFindall_nomatch_run [b1] b2 (b3 :: 1 :: xs)
        (by intro b hb; simp at hb; subst hb; exact hd1) hz2 (Bool.not_eq_true _ ▸ hd2)
      simp only [List.cons_append, List.nil_append] at this
      rw [this]
      exact reFindall_after_le2 b2 b3 xs h3
  · rw [reFindall_zero_tw_nil (b1 :: b2 :: b3 :: 1 :: xs)
      (by simp [List.takeWhile_cons, (Bool.not_eq_true _).mp hd1])]
    exact reFindall_after_le1 b1 b2 b3 xs h3

/-- The `appid` field value (four little-endian bytes of an identifier with
bit 31 set) contributes no match, provided none of the three byte patterns
that would form a stray null-digits-null run occurs. -/
theorem reFindall_skip_appid (b0 b1 b2 b3 : Nat) (xs : List Nat) (h3 : 128 ≤ b3)
    (hM1 : ¬(isDigitByte b0 = true ∧ b1 = 0))
    (hM2 : ¬(isDigitByte b0 = true ∧ isDigitByte b1 = true ∧ b2 = 0))
    (hM3 : ¬(b0 = 0 ∧ isDigitByte b1 = true ∧ b2 = 0)) :
    reFindall (0 :: b0 :: b1 :: b2 :: b3 :: 1 :: xs) = reFindall xs := by
  have hb30 : b3 ≠ 0 := by omega
  have hb3d : isDigitByte b3 = false := by simp [isDigitByte]; omega
  by_cases hd0 : isDigitByte b0 = true
  · have hz1 : b1 ≠ 0 := fun hz => hM1 ⟨hd0, hz⟩
    by_cases hd1 : isDigitByte b1 = true
    · have hz2 : b2 ≠ 0 := fun hz => hM2 ⟨hd0, hd1, hz⟩
      by_cases hd2 : isDigitByte b2 = true
      · have := reFindall_nomatch_run [b0, b1, b2] b3 (1 :: xs)
          (by intro b hb; simp at hb; rcases hb with rfl | rfl | rfl <;> assumption)
          hb30 hb3d
        simp only [List.cons_append, List.nil_append] at this
        rw [this]
        exact reFindall_after_le3 b3 xs h3
      · have := reFindall_nomatch_run [b0, b1] b2 (b3 :: 1 :: xs)
          (by intro b hb; simp at hb; rcases hb with rfl | rfl <;> assumption)
          hz2 (Bool.not_eq_true _ ▸ hd2)
        simp only [List.cons_append, List.nil_append] at this
        rw [this]
        exact reFindall_after_le2 b2 b3 xs h3
    · have := reFindall_nomatch_run [b0] b1 (b2 :: b3 :: 1 :: xs)
        (by intro b hb; simp at hb; subst hb; exact hd0) hz1 (Bool.not_eq_true _ ▸ hd1)
      simp only [List.cons_append, List.nil_append] at this
      rw [this]
      exact reFindall_after_le1 b1 b2 b3 xs h3
  · by_cases hz0 : b0 = 0
    · subst hz0
      rw [reFindall_zero_tw_nil (0 :: b1 :: b2 :: b3 :: 1 :: xs)
        (by simp [List.takeWhile_cons, isDigitByte])]
      exact reFindall_after_le1_zero b1 b2 b3 xs h3 (fun h => hM3 ⟨rfl, h⟩)
    · rw [reFindall_zero_tw_nil (b0 :: b1 :: b2 :: b3 :: 1 :: xs)
        (by simp [List.takeWhile_cons, (Bool.not_eq_true _).mp hd0]),
        reFindall_cons_ne b0 (b1 :: b2 :: b3 :: 1 :: xs) hz0]
      exact reFindall_after_le1 b1 b2 b3 xs h3

/-- Embedding of `get_latest_index` (lines 72-80): the integer value of the
last regex match, or `-1` when there is none. -/
def get_latest_index (data : List Nat) : Int :=
  match (reFindall data).getLast? with
  | some ds => (digitsVal ds : Int)
  | none => -1

/-- Embedding of `make_entry` (lines 86-107).  `appname`, `exe`, `startdir`
and `config_dir` are the UTF-8 byte lists of the corresponding Python
strings; the global `config_dir` of the script is passed explicitly. -/
def make_entry (index appid : Nat) (appname exe startdir config_dir : List Nat) :
    List Nat :=
  [0] ++ decDigits index ++ [0]
    ++ [2] ++ strBytes "appid" ++ [0] ++ packLE32 appid
    ++ [1] ++ strBytes "appname" ++ [0] ++ appname ++ [0]
    ++ [1] ++ strBytes "exe" ++ [0] ++ exe ++ [0]
    ++ [1] ++ strBytes "StartDir" ++ [0] ++ startdir ++ [0]
    ++ [1] ++ strBytes "icon" ++ [0] ++ config_dir ++ strBytes "/grid/"
      ++ decDigits appid ++ strBytes "_icon.ico" ++ [0]
    ++ [8]

/-- One shift-and-conditionally-xor round of the reflected CRC-32. -/
def crc32Step (c : Nat) : Nat :=
  if c % 2 = 1 then (c / 2) ^^^ 0xEDB88320 else c / 2

/-- Iterate `crc32Step` `k` times. -/
def crc32Rounds : Nat → Nat → Nat
  | 0, c => c
  | k + 1, c => crc32Rounds k (crc32Step c)

/-- Modelled from the spec: `zlib.crc32` is a library routine whose code is
not part of this repository; the spec describes it as "a CRC-32 checksum
(standard polynomial, as used by the zlib/IEEE CRC-32 algorithm)".  This is
that algorithm in its standard reflected bitwise form (initial value
`0xFFFFFFFF`, polynomial `0xEDB88320`, final complement). -/
def crc32 (bytes : List Nat) : Nat :=
  (bytes.foldl (fun c b => crc32Rounds 8 (c ^^^ b)) 0xFFFFFFFF) ^^^ 0xFFFFFFFF

/-- Embedding of line 110: `0x80000000 | zlib.crc32((APPNAME + EXE).encode())
& 0xFFFFFFFF`.  Python's `&` binds tighter than `|`, and the UTF-8 encoding
of a concatenation is the concatenation of the encodings. -/
def hash_appid (appname exe : List Nat) : Nat :=
  0x80000000 ||| (crc32 (appname ++ exe) &&& 0xFFFFFFFF)

/-- Failure taxonomy of the store mutation. -/
inductive StoreError where
  | malformedStore
deriving DecidableEq

/-- Embedding of lines 114-121: validate that the buffer ends with two
`0x08` bytes; on success splice the entry before them (`data[:-2] + entry +
b'\x08\x08'`), otherwise fail without producing new contents. -/
def insert_shortcut (data entry : List Nat) : Except StoreError (List Nat) :=
  if ([8, 8] : List Nat).isSuffixOf data then
    Except.ok (data.dropLast.dropLast ++ entry ++ [8, 8])
  else
    Except.error StoreError.malformedStore

/-- File contents after the mutation step: the spliced store on success, the
unchanged original bytes on failure (the script writes nothing then). -/
def storeAfterInsert (data entry : List Nat) : List Nat :=
  match insert_shortcut data entry with
  | Except.ok d => d
  | Except.error _ => data

/-- The minimal empty store written by lines 64-66: `b'\x00shortcuts\x00\x08\x08'`. -/
def emptyStore : List Nat := [0] ++ strBytes "shortcuts" ++ [0, 8, 8]

/-- Inserting into a buffer that ends with the two close markers splices the
entry between the existing contents and the markers. -/
theorem insert_shortcut_wf (x e : List Nat) :
    insert_shortcut (x ++ [8, 8]) e = Except.ok (x ++ e ++ [8, 8]) ∧
    storeAfterInsert (x ++ [8, 8]) e = x ++ e ++ [8, 8] := by
  have hsuf : (([8, 8] : List Nat).isSuffixOf (x ++ [8, 8])) = true := by
    rw [List.isSuffixOf_iff_suffix]
    exact ⟨x, rfl⟩
  have hdrop : (x ++ [8, 8]).dropLast.dropLast = x := by
    have h1 : x ++ [8, 8] = (x ++ [8]) ++ [8] := by simp
    rw [h1, List.dropLast_concat, List.dropLast_concat]
  constructor
  · rw [insert_shortcut, if_pos hsuf, hdrop]
  · rw [storeAfterInsert, insert_shortcut, if_pos hsuf, hdrop]

/-- Scanning the store header (object-open, "shortcuts", null) finds no
match and continues at the following record bytes, provided they do not
begin with a digit run (records begin with an object-open null byte). -/
theorem reFindall_store_header (zs : List Nat)
    (hz : zs.takeWhile isDigitByte = []) :
    reFindall (emptyStore.dropLast.dropLast ++ zs) = reFindall zs := by
  have hH : emptyStore.dropLast.dropLast = 0 :: (strBytes "shortcuts" ++ [0]) := by decide
  have hshape : (0 :: (strBytes "shortcuts" ++ [0])) ++ zs =
      0 :: (strBytes "shortcuts" ++ 0 :: zs) := by simp
  rw [hH, hshape,
    reFindall_skip_value (strBytes "shortcuts") zs (by decide)
      (Or.inr ⟨115, by decide, by decide⟩),
    reFindall_zero_tw_nil zs hz]

/-- Scanning one encoded record followed by arbitrary trailing bytes yields
exactly the record's index digits and then the matches of the trailing
bytes, provided: the identifier's little-endian bytes contain none of the
three stray null-digits-null patterns and its top byte is at least 128 (bit
31 set); the three free string fields contain no null byte and are not
nonempty all-digit runs; and the icon directory contains no null byte. -/
theorem reFindall_entry (idx appid : Nat) (v1 v2 v3 cfg ys : List Nat)
    (h3 : 128 ≤ appid / 16777216 % 256)
    (hM1 : ¬(isDigitByte (appid % 256) = true ∧ appid / 256 % 256 = 0))
    (hM2 : ¬(isDigitByte (appid % 256) = true ∧ isDigitByte (appid / 256 % 256) = true ∧
        appid / 65536 % 256 = 0))
    (hM3 : ¬(appid % 256 = 0 ∧ isDigitByte (appid / 256 % 256) = true ∧
        appid / 65536 % 256 = 0))
    (hv1 : ∀ b ∈ v1, b ≠ 0) (hv2 : ∀ b ∈ v2, b ≠ 0) (hv3 : ∀ b ∈ v3, b ≠ 0)
    (hcfg : ∀ b ∈ cfg, b ≠ 0)
    (hd1 : v1 = [] ∨ ∃ c ∈ v1, isDigitByte c = false)
    (hd2 : v2 = [] ∨ ∃ c ∈ v2, isDigitByte c = false)
    (hd3 : v3 = [] ∨ ∃ c ∈ v3, isDigitByte c = false) :
    reFindall (make_entry idx appid v1 v2 v3 cfg ++ ys) =
      decDigits idx :: reFindall ys := by
  have hdig0 : isDigitByte 0 = false := by decide
  have hdig1 : isDigitByte 1 = false := by decide
  have hdig8 : isDigitByte 8 = false := by decide
  have e1 : make_entry idx appid v1 v2 v3 cfg ++ ys =
      0 :: (decDigits idx ++ 0 ::
        (2 :: (strBytes "appid" ++
          0 :: (appid % 256) :: (appid / 256 % 256) :: (appid / 65536 % 256) ::
            (appid / 16777216 % 256) :: 1 ::
          (strBytes "appname" ++
          0 :: (v1 ++
          0 :: 1 :: (strBytes "exe" ++
          0 :: (v2 ++
          0 :: 1 :: (strBytes "StartDir" ++
          0 :: (v3 ++
          0 :: 1 :: (strBytes "icon" ++
          0 :: ((cfg ++ strBytes "/grid/" ++ decDigits appid ++ strBytes "_icon.ico") ++
          0 :: 8 :: ys))))))))))) := by
    simp [make_entry, packLE32, List.append_assoc]
  rw [e1]
  rw [reFindall_match (decDigits idx) _ (decDigits_ne_nil idx) (decDigits_all_digit idx)]
  rw [reFindall_cons_ne 2 _ (by omega)]
  rw [reFindall_skip (strBytes "appid") _ (by decide)]
  rw [reFindall_skip_appid (appid % 256) (appid / 256 % 256) (appid / 65536 % 256)
    (appid / 16777216 % 256) _ h3 hM1 hM2 hM3]
  rw [reFindall_skip (strBytes "appname") _ (by decide)]
  rw [reFindall_skip_value v1 _ hv1 hd1]
  rw [reFindall_zero_tw_nil _ (by rw [List.takeWhile_cons, if_neg (by simp [hdig1])])]
  rw [reFindall_cons_ne 1 _ (by omega)]
  rw [reFindall_skip (strBytes "exe") _ (by decide)]
  rw [reFindall_skip_value v2 _ hv2 hd2]
  rw [reFindall_zero_tw_nil _ (by rw [List.takeWhile_cons, if_neg (by simp [hdig1])])]
  rw [reFindall_cons_ne 1 _ (by omega)]
  rw [reFindall_skip (strBytes "StartDir") _ (by decide)]
  rw [reFindall_skip_value v3 _ hv3 hd3]
  rw [reFindall_zero_tw_nil _ (by rw [List.takeWhile_cons, if_neg (by simp [hdig1])])]
  rw [reFindall_cons_ne 1 _ (by omega)]
  rw [reFindall_skip (strBytes "icon") _ (by decide)]
  rw [reFindall_skip_value (cfg ++ strBytes "/grid/" ++ decDigits appid ++ strBytes "_icon.ico") _
    (by
      intro b hb
      simp only [List.mem_append] at hb
      rcases hb with ((hb | hb) | hb) | hb
      · exact hcfg b hb
      · revert hb; revert b; decide
      · exact digit_ne_zero b (decDigits_all_digit appid b hb)
      · revert hb; revert b; decide)
    (Or.inr ⟨47, List.mem_append_left _ (List.mem_append_left _ (List.mem_append_right _ (by decide))), by decide⟩)]
  rw [reFindall_zero_tw_nil _ (by rw [List.takeWhile_cons, if_neg (by simp [hdig8])])]
  rw [reFindall_cons_ne 8 _ (by omega)]

/-- An occurrence, anywhere in the buffer, of a null byte followed by a
nonempty run of ASCII digit bytes followed by a null byte; `ds` is the digit
run. -/
def OccursAt (data ds : List Nat) : Prop :=
  ds ≠ [] ∧ (∀ b ∈ ds, isDigitByte b = true) ∧
    ∃ pre post, data = pre ++ 0 :: (ds ++ 0 :: post)

/-- An occurrence as in `OccursAt`, pinned to start at byte offset `i`. -/
def OccursAtPos (data : List Nat) (i : Nat) (ds : List Nat) : Prop :=
  ds ≠ [] ∧ (∀ b ∈ ds, isDigitByte b = true) ∧
    ∃ post, data.drop i = 0 :: (ds ++ 0 :: post)

/-- Soundness of the scan: every reported digit run is a genuine
null-digits-null occurrence in the buffer (fuelled induction helper). -/
theorem reFindall_sound_aux :
    ∀ (n : Nat) (data : List Nat), data.length ≤ n →
      ∀ ds, ds ∈ reFindall data → OccursAt data ds := by
  intro n
  induction n with
  | zero =>
    intro data hlen ds hm
    have hdata : data = [] := by
      cases data with
      | nil => rfl
      | cons a t => simp at hlen
    subst hdata
    simp [reFindall, reFindallAux] at hm
  | succ n ih =>
    intro data hlen ds hm
    cases data with
    | nil => simp [reFindall, reFindallAux] at hm
    | cons b rest =>
      have hrlen : rest.length ≤ n := by simp at hlen; omega
      have htlen : (rest.dropWhile isDigitByte).tail.length ≤ rest.length := by
        have h1 : (rest.dropWhile isDigitByte).length ≤ rest.length :=
          dropWhile_length_le isDigitByte rest
        have h2 : (rest.dropWhile isDigitByte).tail.length =
            (rest.dropWhile isDigitByte).length - 1 := List.length_tail _
        omega
      rw [reFindall_cons] at hm
      by_cases hc : b = 0 ∧ rest.takeWhile isDigitByte ≠ [] ∧
          (rest.dropWhile isDigitByte).head? = some 0
      · rw [if_pos hc] at hm
        obtain ⟨hb0, htw, hhd⟩ := hc
        subst hb0
        have hdw : rest.dropWhile isDigitByte =
            0 :: (rest.dropWhile isDigitByte).tail := by
          cases h : rest.dropWhile isDigitByte with
          | nil => rw [h] at hhd; simp at hhd
          | cons d t =>
            rw [h] at hhd
            simp at hhd
            rw [hhd]
            simp
        have hrest : rest = rest.takeWhile isDigitByte ++
            0 :: (rest.dropWhile isDigitByte).tail := by
          conv_lhs => rw [← List.takeWhile_append_dropWhile (p := isDigitByte) (l := rest)]
          rw [← hdw]
        rcases List.mem_cons.mp hm with rfl | hm
        · exact ⟨htw, fun b hb => List.mem_takeWhile_imp hb,
            [], (rest.dropWhile isDigitByte).tail, by rw [← hrest]; simp⟩
        · obtain ⟨hne, hdig, pre, post, hdecomp⟩ :=
            ih (rest.dropWhile isDigitByte).tail (le_trans htlen hrlen) ds hm
          refine ⟨hne, hdig, 0 :: rest.takeWhile isDigitByte ++ 0 :: pre, post, ?_⟩
          conv_lhs => rw [hrest, hdecomp]
          simp [List.append_assoc]
      · rw [if_neg hc] at hm
        obtain ⟨hne, hdig, pre, post, hdecomp⟩ := ih rest hrlen ds hm
        exact ⟨hne, hdig, b :: pre, post, by rw [hdecomp]; rfl⟩

/-- Soundness of the scan: every reported digit run is a genuine
null-digits-null occurrence in the buffer. -/
theorem reFindall_sound (data ds : List Nat) (h : ds ∈ reFindall data) :
    OccursAt data ds :=
  reFindall_sound_aux data.length data le_rfl ds h

/-- Completeness of the scan for emptiness: a buffer containing any
null-digits-null occurrence yields at least one match (fuelled helper). -/
theorem reFindall_ne_nil_of_occurs_aux :
    ∀ (n : Nat) (data : List Nat), data.length ≤ n →
      ∀ ds, OccursAt data ds → reFindall data ≠ [] := by
  intro n
  induction n with
  | zero =>
    intro data hlen ds hocc
    obtain ⟨-, -, pre, post, hdecomp⟩ := hocc
    have : data.length = 0 := by
      cases data with
      | nil => rfl
      | cons a t => simp at hlen
    rw [hdecomp] at this
    simp at this
  | succ n ih =>
    intro data hlen ds hocc
    obtain ⟨hne, hdig, pre, post, hdecomp⟩ := hocc
    cases data with
    | nil => simp at hdecomp
    | cons b rest =>
      have hrlen : rest.length ≤ n := by simp at hlen; omega
      cases pre with
      | nil =>
        simp only [List.nil_append] at hdecomp
        injection hdecomp with h1 h2
        subst h1
        subst h2
        obtain ⟨htw, hdw⟩ := takeWhile_dropWhile_digits ds 0 post hdig (by decide)
        rw [reFindall_cons,
          if_pos ⟨rfl, by rw [htw]; exact hne, by rw [hdw]; rfl⟩]
        simp
      | cons p pre' =>
        injection hdecomp with h1 h2
        subst h1
        have hocc' : OccursAt rest ds := ⟨hne, hdig, pre', post, h2⟩
        rw [reFindall_cons]
        by_cases hc : b = 0 ∧ rest.takeWhile isDigitByte ≠ [] ∧
            (rest.dropWhile isDigitByte).head? = some 0
        · rw [if_pos hc]
          simp
        · rw [if_neg hc]
          exact ih rest hrlen ds hocc'

/-- Completeness of the scan for emptiness: a buffer containing any
null-digits-null occurrence yields at least one match. -/
theorem reFindall_ne_nil_of_occurs (data ds : List Nat) (h : OccursAt data ds) :
    reFindall data ≠ [] :=
  reFindall_ne_nil_of_occurs_aux data.length data le_rfl ds h

/-- Spec-side description (refinement target for C1): an integer field is
"tag 0x02 + field name + 0x00 + the value as a 4-byte little-endian unsigned
integer". -/
def specIntField (fname : String) (v : Nat) : List Nat :=
  [2] ++ strBytes fname ++ [0] ++ packLE32 v

/-- Spec-side description (refinement target for C1): a string field is
"tag + field name + 0x00 + UTF-8 value + 0x00" with tag `0x01`. -/
def specStrField (fname : String) (v : List Nat) : List Nat :=
  [1] ++ strBytes fname ++ [0] ++ v ++ [0]

/-- Spec-side description (refinement target for C1): the full record byte
layout stated by the spec, assembled from its own words: `0x00`, the index
as decimal ASCII, `0x00`, the `appid` integer field, the string fields
`appname`, `exe`, `StartDir`, `icon` in that order (the icon value being the
icon directory + "/grid/" + the identifier as decimal + "_icon.ico"), then a
single `0x08` close byte. -/
def specRecordLayout (index appid : Nat) (appname exe startdir icondir : List Nat) :
    List Nat :=
  [0] ++ decDigits index ++ [0]
    ++ specIntField "appid" appid
    ++ specStrField "appname" appname
    ++ specStrField "exe" exe
    ++ specStrField "StartDir" startdir
    ++ specStrField "icon"
        (icondir ++ strBytes "/grid/" ++ decDigits appid ++ strBytes "_icon.ico")
    ++ [8]

/-- Claim C1: for every index, identifier and field values, the record
encoder `make_entry` returns exactly the byte sequence described by the
spec: object-open, index as decimal ASCII, null, the `appid` uint32-LE
field, the `appname`/`exe`/`StartDir`/`icon` string fields in that order
(icon value synthesized from the icon directory and the identifier), and a
single 0x08 close byte.  Quantifying over all byte-list field values covers
in particular all null-free strings. -/
theorem claim1_record_encoder_exact_layout :
    ∀ (index appid : Nat) (appname exe startdir icondir : List Nat),
      make_entry index appid appname exe startdir icondir =
        specRecordLayout index appid appname exe startdir icondir := by
  intro index appid appname exe startdir icondir
  simp [make_entry, specRecordLayout, specIntField, specStrField,
    List.append_assoc]

/-- Claim C2, counterexample: inserting the record with index 0 and
identifier 0x80000001 (and empty string fields) into the empty store yields
a store of 87 bytes, while the claimed length "original store length minus 2
plus the length of the encoded record" is 13 - 2 + 74 = 85.  The splice
re-appends the two close-marker bytes after the record, which the claim's
arithmetic omits. -/
theorem claim2_cex_length_off_by_two :
    (storeAfterInsert emptyStore (make_entry 0 2147483649 [] [] [] [])).length = 87 ∧
    emptyStore.length - 2 + (make_entry 0 2147483649 [] [] [] []).length = 85 := by
  constructor <;> decide

/-- Claim C2 (amended): inserting one record (index 0, any identifier, any
field values) into the empty store `0x00 "shortcuts" 0x00 0x08 0x08`
succeeds, yields a store whose final two bytes are still `0x08 0x08`, and
whose total byte length equals the original store length minus 2, plus the
length of the encoded record, plus the 2 re-appended close-marker bytes. -/
theorem claim2_empty_store_insert_shape :
    ∀ (appid : Nat) (appname exe startdir icondir : List Nat),
      insert_shortcut emptyStore (make_entry 0 appid appname exe startdir icondir) =
        Except.ok (storeAfterInsert emptyStore (make_entry 0 appid appname exe startdir icondir)) ∧
      List.IsSuffix [8, 8]
        (storeAfterInsert emptyStore (make_entry 0 appid appname exe startdir icondir)) ∧
      (storeAfterInsert emptyStore (make_entry 0 appid appname exe startdir icondir)).length =
        emptyStore.length - 2 +
          (make_entry 0 appid appname exe startdir icondir).length + 2 := by
  intro appid appname exe startdir icondir
  have hsuf : (([8, 8] : List Nat).isSuffixOf emptyStore) = true := by decide
  have hstore : storeAfterInsert emptyStore (make_entry 0 appid appname exe startdir icondir) =
      emptyStore.dropLast.dropLast ++ make_entry 0 appid appname exe startdir icondir ++ [8, 8] := by
    simp [storeAfterInsert, insert_shortcut, hsuf]
  refine ⟨?_, ?_, ?_⟩
  · simp [insert_shortcut, hsuf, hstore, storeAfterInsert]
  · exact ⟨emptyStore.dropLast.dropLast ++ make_entry 0 appid appname exe startdir icondir,
      by simp [hstore, List.append_assoc]⟩
  · have h11 : (emptyStore.dropLast.dropLast).length = 11 := by decide
    have h13 : emptyStore.length = 13 := by decide
    simp [hstore, List.length_append, h11, h13]
    omega

/-- Claim C3: for every store buffer whose last two bytes are not both 0x08
(in particular every buffer shorter than two bytes), the insert operation
fails with the `malformedStore` condition and the store contents stay
byte-for-byte unchanged. -/
theorem claim3_malformed_store_no_write :
    ∀ (data entry : List Nat),
      (([8, 8] : List Nat).isSuffixOf data) = false →
      insert_shortcut data entry = Except.error StoreError.malformedStore ∧
      storeAfterInsert data entry = data := by
  intro data entry h
  constructor
  · simp [insert_shortcut, h]
  · simp [storeAfterInsert, insert_shortcut, h]

/-- Witness for C3 at the concrete buffer `[0, 115]` (ends in `0x73`, not
`0x08 0x08`): the insert fails and the buffer is unchanged. -/
theorem claim3_malformed_store_no_write_witness :
    insert_shortcut [0, 115] [1] = Except.error StoreError.malformedStore ∧
    storeAfterInsert [0, 115] [1] = [0, 115] :=
  claim3_malformed_store_no_write [0, 115] [1] (by decide)

/-- Claim C6: the identifier hash equals `0x80000000` bitwise-or the 32-bit
masked CRC-32 of the name bytes concatenated with the command bytes (no
separator); bit 31 of the result is therefore always set, and the function
is deterministic: equal inputs give equal outputs. -/
theorem claim6_hash_high_bit_and_determinism :
    ∀ (appname exe : List Nat),
      hash_appid appname exe = 2147483648 ||| (crc32 (appname ++ exe) &&& 4294967295) ∧
      Nat.testBit (hash_appid appname exe) 31 = true ∧
      (∀ appname2 exe2, appname = appname2 → exe = exe2 →
        hash_appid appname exe = hash_appid appname2 exe2) := by
  intro appname exe
  refine ⟨rfl, ?_, ?_⟩
  · have : Nat.testBit 2147483648 31 = true := by decide
    simp [hash_appid, Nat.testBit_lor, this]
  · intro appname2 exe2 h1 h2
    rw [h1, h2]

/-- Witness for C6 at concrete inputs `"a"` and `"b"` (bytes 97 and 98). -/
theorem claim6_hash_high_bit_and_determinism_witness :
    Nat.testBit (hash_appid [97] [98]) 31 = true ∧
    hash_appid [97] [98] = hash_appid [97] [98] :=
  ⟨(claim6_hash_high_bit_and_determinism [97] [98]).2.1,
   (claim6_hash_high_bit_and_determinism [97] [98]).2.2 [97] [98] rfl rfl⟩


/-- An encoded record begins with its object-open null byte, so no digit run
starts at its first byte. -/
theorem takeWhile_after_entry (idx appid : Nat) (v1 v2 v3 cfg ys : List Nat) :
    ((make_entry idx appid v1 v2 v3 cfg) ++ ys).takeWhile isDigitByte = [] := by
  have h0 : isDigitByte 0 = false := by decide
  simp [make_entry, List.append_assoc, List.takeWhile_cons, h0]

/-- Scanning a store holding exactly one encoded record returns that
record's index, under the cleanliness conditions of `reFindall_entry`. -/
theorem get_latest_single_record (idx appid : Nat) (v1 v2 v3 cfg : List Nat)
    (h3 : 128 ≤ appid / 16777216 % 256)
    (hM1 : ¬(isDigitByte (appid % 256) = true ∧ appid / 256 % 256 = 0))
    (hM2 : ¬(isDigitByte (appid % 256) = true ∧ isDigitByte (appid / 256 % 256) = true ∧
        appid / 65536 % 256 = 0))
    (hM3 : ¬(appid % 256 = 0 ∧ isDigitByte (appid / 256 % 256) = true ∧
        appid / 65536 % 256 = 0))
    (hv1 : ∀ b ∈ v1, b ≠ 0) (hv2 : ∀ b ∈ v2, b ≠ 0) (hv3 : ∀ b ∈ v3, b ≠ 0)
    (hcfg : ∀ b ∈ cfg, b ≠ 0)
    (hd1 : v1 = [] ∨ ∃ c ∈ v1, isDigitByte c = false)
    (hd2 : v2 = [] ∨ ∃ c ∈ v2, isDigitByte c = false)
    (hd3 : v3 = [] ∨ ∃ c ∈ v3, isDigitByte c = false) :
    get_latest_index (storeAfterInsert emptyStore (make_entry idx appid v1 v2 v3 cfg)) =
      (idx : Int) := by
  have hsplit : emptyStore = emptyStore.dropLast.dropLast ++ [8, 8] := by decide
  have hins := (insert_shortcut_wf emptyStore.dropLast.dropLast
    (make_entry idx appid v1 v2 v3 cfg)).2
  rw [hsplit, hins]
  have hassoc : emptyStore.dropLast.dropLast ++ make_entry idx appid v1 v2 v3 cfg ++ [8, 8] =
      emptyStore.dropLast.dropLast ++ (make_entry idx appid v1 v2 v3 cfg ++ [8, 8]) := by
    simp [List.append_assoc]
  have hscan : reFindall (emptyStore.dropLast.dropLast ++
      (make_entry idx appid v1 v2 v3 cfg ++ [8, 8])) = [decDigits idx] := by
    rw [reFindall_store_header _ (takeWhile_after_entry idx appid v1 v2 v3 cfg [8, 8]),
      reFindall_entry idx appid v1 v2 v3 cfg [8, 8] h3 hM1 hM2 hM3 hv1 hv2 hv3 hcfg hd1 hd2 hd3]
    have h88 : reFindall [8, 8] = [] := by decide
    rw [h88]
  rw [hassoc]
  simp only [get_latest_index, hscan, List.getLast?_singleton]
  rw [digitsVal_decDigits]



/-- Claim C4 (amended): the index scan returns the integer value of the
last match of the left-to-right non-overlapping scan (each match a null
byte, a maximal nonempty digit run, a null byte, with scanning resuming
after the closing null), or -1 exactly when the buffer contains no
null-digits-null occurrence at all; every value the scan can return comes
from a genuine occurrence.  On the empty store it returns -1 and on a store
with records of indices 0, 2 and 5 inserted in that order it returns 5. -/
theorem claim4_scan_last_nonoverlapping_match :
    (∀ data : List Nat, get_latest_index data = -1 ↔ ¬∃ ds, OccursAt data ds) ∧
    (∀ data ds, (reFindall data).getLast? = some ds →
      get_latest_index data = (digitsVal ds : Int) ∧ OccursAt data ds) ∧
    get_latest_index emptyStore = -1 ∧
    get_latest_index (storeAfterInsert (storeAfterInsert (storeAfterInsert emptyStore
        (make_entry 0 2147483649 [] [] [] [])) (make_entry 2 2147483649 [] [] [] []))
      (make_entry 5 2147483649 [] [] [] [])) = 5 := by
  refine ⟨?_, ?_, by decide, ?_⟩
  · intro data
    constructor
    · intro h hex
      obtain ⟨ds, hocc⟩ := hex
      cases hm : (reFindall data).getLast? with
      | some ds' =>
        simp only [get_latest_index, hm] at h
        omega
      | none =>
        exact reFindall_ne_nil_of_occurs data ds hocc (List.getLast?_eq_none_iff.mp hm)
    · intro h
      cases hm : reFindall data with
      | nil =>
        have hnone : (reFindall data).getLast? = none := by rw [hm]; rfl
        simp [get_latest_index, hnone]
      | cons x t =>
        exact absurd ⟨x, reFindall_sound data x (by rw [hm]; simp)⟩ h
  · intro data ds h
    refine ⟨by simp only [get_latest_index, h], ?_⟩
    exact reFindall_sound data ds (List.mem_of_mem_getLast? (by simp [h]))
  · have hM : (128 ≤ (2147483649 : Nat) / 16777216 % 256) ∧
        ¬(isDigitByte (2147483649 % 256) = true ∧ (2147483649 : Nat) / 256 % 256 = 0) ∧
        ¬(isDigitByte (2147483649 % 256) = true ∧ isDigitByte ((2147483649 : Nat) / 256 % 256) = true ∧
          (2147483649 : Nat) / 65536 % 256 = 0) ∧
        ¬((2147483649 : Nat) % 256 = 0 ∧ isDigitByte ((2147483649 : Nat) / 256 % 256) = true ∧
          (2147483649 : Nat) / 65536 % 256 = 0) := by decide
    obtain ⟨h3, hM1, hM2, hM3⟩ := hM
    have hnil : ∀ b ∈ ([] : List Nat), b ≠ 0 := by simp
    have hdn : ([] : List Nat) = [] ∨ ∃ c ∈ ([] : List Nat), isDigitByte c = false := Or.inl rfl
    have hsplit : emptyStore = emptyStore.dropLast.dropLast ++ [8, 8] := by decide
    have h1 := (insert_shortcut_wf emptyStore.dropLast.dropLast
      (make_entry 0 2147483649 [] [] [] [])).2
    have h2 := (insert_shortcut_wf (emptyStore.dropLast.dropLast ++ make_entry 0 2147483649 [] [] [] [])
      (make_entry 2 2147483649 [] [] [] [])).2
    have h3' := (insert_shortcut_wf ((emptyStore.dropLast.dropLast ++ make_entry 0 2147483649 [] [] [] []) ++
      make_entry 2 2147483649 [] [] [] []) (make_entry 5 2147483649 [] [] [] [])).2
    rw [hsplit, h1, h2, h3']
    have hassoc : ((emptyStore.dropLast.dropLast ++ make_entry 0 2147483649 [] [] [] []) ++
        make_entry 2 2147483649 [] [] [] []) ++ make_entry 5 2147483649 [] [] [] [] ++ [8, 8] =
        emptyStore.dropLast.dropLast ++ (make_entry 0 2147483649 [] [] [] [] ++
          (make_entry 2 2147483649 [] [] [] [] ++ (make_entry 5 2147483649 [] [] [] [] ++ [8, 8]))) := by
      simp [List.append_assoc]
    rw [hassoc]
    have hscan : reFindall (emptyStore.dropLast.dropLast ++ (make_entry 0 2147483649 [] [] [] [] ++
        (make_entry 2 2147483649 [] [] [] [] ++ (make_entry 5 2147483649 [] [] [] [] ++ [8, 8])))) =
        [decDigits 0, decDigits 2, decDigits 5] := by
      rw [reFindall_store_header _ (takeWhile_after_entry 0 2147483649 [] [] [] [] _),
        reFindall_entry 0 2147483649 [] [] [] [] _ h3 hM1 hM2 hM3 hnil hnil hnil hnil hdn hdn hdn,
        reFindall_entry 2 2147483649 [] [] [] [] _ h3 hM1 hM2 hM3 hnil hnil hnil hnil hdn hdn hdn,
        reFindall_entry 5 2147483649 [] [] [] [] _ h3 hM1 hM2 hM3 hnil hnil hnil hnil hdn hdn hdn]
      have h88 : reFindall [8, 8] = [] := by decide
      rw [h88]
    have hlast : ([decDigits 0, decDigits 2, decDigits 5]).getLast? = some (decDigits 5) := rfl
    simp only [get_latest_index, hscan, hlast]
    rw [digitsVal_decDigits]
    rfl

/-- Witness for C4 at the concrete buffer `00 '1' 00`: its last (and only)
match is "1", so the scan returns 1, and "1" is a genuine occurrence. -/
theorem claim4_scan_last_nonoverlapping_match_witness :
    get_latest_index [0, 49, 0] = (digitsVal [49] : Int) ∧ OccursAt [0, 49, 0] [49] :=
  claim4_scan_last_nonoverlapping_match.2.1 [0, 49, 0] [49] (by decide)

/-- Claim C4, counterexample: on the buffer `00 '0' 00 '1' 00` the last
occurrence (in byte order) of null-digits-null starts at offset 2 and has
value 1, yet the scan returns 0 — `re.findall` matches are non-overlapping,
so the occurrence of "1" whose opening null was consumed by the preceding
match is not found.  The claim's "value of the last occurrence" is
therefore false as stated. -/
theorem claim4_cex_overlapped_occurrence_missed :
    get_latest_index [0, 48, 0, 49, 0] = 0 ∧
    OccursAtPos [0, 48, 0, 49, 0] 2 [49] ∧ digitsVal [49] = 1 ∧
    (∀ i ds, OccursAtPos [0, 48, 0, 49, 0] i ds → i ≤ 2) ∧
    (∀ ds, OccursAtPos [0, 48, 0, 49, 0] 2 ds → ds = [49]) ∧
    (0 : Int) ≠ 1 := by
  refine ⟨by decide, ⟨by decide, by decide, [], by decide⟩, by decide, ?_, ?_, by decide⟩
  · rintro i ds ⟨hne, hdig, post, hdrop⟩
    by_contra hgt
    have hlen := congrArg List.length hdrop
    simp [List.length_drop] at hlen
    have hpos : 0 < ds.length := List.length_pos.mpr hne
    omega
  · rintro ds ⟨hne, hdig, post, hdrop⟩
    have hd2 : List.drop 2 [0, 48, 0, 49, 0] = [0, 49, 0] := rfl
    rw [hd2] at hdrop
    cases ds with
    | nil => exact absurd rfl hne
    | cons d ds' =>
      simp only [List.cons_append, List.cons.injEq] at hdrop
      obtain ⟨-, h49, hrest⟩ := hdrop
      cases ds' with
      | nil =>
        simp only [List.nil_append, List.cons.injEq] at hrest
        rw [h49]
      | cons e es =>
        simp only [List.cons_append, List.cons.injEq] at hrest
        obtain ⟨h0e, habs⟩ := hrest
        have hl := congrArg List.length habs
        simp at hl
        omega

/-- Claim C10: the index scan uses non-overlapping matches: on the buffer
`00 '0' 00 '1' 00` the only match found is "0" and the scan returns 0, even
though an occurrence of "1" (value 1) starts at offset 2; its opening null
byte was consumed as the closing null of the preceding match. -/
theorem claim10_nonoverlapping_scan :
    get_latest_index [0, 48, 0, 49, 0] = 0 ∧
    reFindall [0, 48, 0, 49, 0] = [[48]] ∧
    OccursAtPos [0, 48, 0, 49, 0] 2 [49] ∧
    digitsVal [49] = 1 := by
  exact ⟨by decide, by decide, ⟨by decide, by decide, [], by decide⟩, by decide⟩

/-- Claim C7 (amended): encoding a record and scanning a store containing
only that record returns the record's index, for every index, every 32-bit
identifier with bit 31 set whose little-endian bytes do not form a stray
null-digits-null pattern, and all null-free string fields none of which is a
nonempty all-digit run.  (The counterexample shows the unamended claim fails
for digit-run field values.) -/
theorem claim7_roundtrip_guarded :
    ∀ (idx appid : Nat) (v1 v2 v3 cfg : List Nat),
      2147483648 ≤ appid → appid < 4294967296 →
      ¬(isDigitByte (appid % 256) = true ∧ appid / 256 % 256 = 0) →
      ¬(isDigitByte (appid % 256) = true ∧ isDigitByte (appid / 256 % 256) = true ∧
        appid / 65536 % 256 = 0) →
      ¬(appid % 256 = 0 ∧ isDigitByte (appid / 256 % 256) = true ∧
        appid / 65536 % 256 = 0) →
      (∀ b ∈ v1, b ≠ 0) → (∀ b ∈ v2, b ≠ 0) → (∀ b ∈ v3, b ≠ 0) →
      (∀ b ∈ cfg, b ≠ 0) →
      (v1 = [] ∨ ∃ c ∈ v1, isDigitByte c = false) →
      (v2 = [] ∨ ∃ c ∈ v2, isDigitByte c = false) →
      (v3 = [] ∨ ∃ c ∈ v3, isDigitByte c = false) →
      get_latest_index (storeAfterInsert emptyStore (make_entry idx appid v1 v2 v3 cfg)) =
        (idx : Int) := by
  intro idx appid v1 v2 v3 cfg hlo hhi hM1 hM2 hM3 hv1 hv2 hv3 hcfg hd1 hd2 hd3
  have h3 : 128 ≤ appid / 16777216 % 256 := by
    have ha : 128 ≤ appid / 16777216 := (Nat.le_div_iff_mul_le (by norm_num)).mpr (by omega)
    have hb : appid / 16777216 < 256 := (Nat.div_lt_iff_lt_mul (by norm_num)).mpr (by omega)
    rw [Nat.mod_eq_of_lt hb]
    exact ha
  exact get_latest_single_record idx appid v1 v2 v3 cfg h3 hM1 hM2 hM3 hv1 hv2 hv3 hcfg hd1 hd2 hd3

/-- Witness for C7 at index 3, identifier 0x80000001 and one-byte fields
"M", "e", "s". -/
theorem claim7_roundtrip_guarded_witness :
    get_latest_index (storeAfterInsert emptyStore
      (make_entry 3 2147483649 [77] [101] [115] [])) = (3 : Int) :=
  claim7_roundtrip_guarded 3 2147483649 [77] [101] [115] [] (by decide) (by decide) (by decide)
    (by decide) (by decide) (by decide) (by decide) (by decide) (by decide)
    (Or.inr ⟨77, by decide, by decide⟩) (Or.inr ⟨101, by decide, by decide⟩)
    (Or.inr ⟨115, by decide, by decide⟩)

set_option maxRecDepth 2000 in
/-- Claim C7, counterexample: with the null-free appname "7" (byte 0x37),
encoding a record with index 0 and scanning the store containing only that
record returns 7 — the appname value forms its own null-digits-null run and
is the last match — so the round-trip claim fails for arbitrary null-free
string fields. -/
theorem claim7_cex_digit_valued_appname :
    get_latest_index (storeAfterInsert emptyStore (make_entry 0 2147483649 [55] [] [] [])) = 7 ∧
    (7 : Int) ≠ 0 := by
  constructor
  · decide
  · decide

set_option maxRecDepth 4000 in
/-- Claim C5 (amended): the index assigned to a newly inserted record is
the scan result plus one (the code computes `get_latest_index(data) + 1`),
which is always non-negative; it equals the maximum existing index plus one
only when the last scan match is that maximum.  Two sequential insertions
into the empty store produce indices 0 then 1 (shown for a concrete
name/command pair via the program's own hash). -/

theorem claim5_next_index_scan_plus_one :
    (∀ data : List Nat, 0 ≤ get_latest_index data + 1) ∧
    get_latest_index emptyStore + 1 = 0 ∧
    get_latest_index (storeAfterInsert emptyStore
      (make_entry 0 (hash_appid (strBytes "Minecraft") (strBytes "/p"))
        (strBytes "Minecraft") (strBytes "/p") (strBytes "/s") (strBytes "/c"))) + 1 = 1 := by
  refine ⟨?_, by decide, ?_⟩
  · intro data
    cases hm : (reFindall data).getLast? with
    | some ds =>
      simp only [get_latest_index, hm]
      have := Int.natCast_nonneg (digitsVal ds)
      omega
    | none => simp [get_latest_index, hm]
  · have h := get_latest_single_record 0 (hash_appid (strBytes "Minecraft") (strBytes "/p"))
      (strBytes "Minecraft") (strBytes "/p") (strBytes "/s") (strBytes "/c")
      (by decide) (by decide) (by decide) (by decide)
      (by decide) (by decide) (by decide) (by decide)
      (Or.inr ⟨77, by decide, by decide⟩) (Or.inr ⟨47, by decide, by decide⟩)
      (Or.inr ⟨47, by decide, by decide⟩)
    rw [h]
    rfl

/-- Claim C5, counterexample: a well-formed store containing records with
indices 1 then 0 (in that byte order; total decomposition shown explicitly)
makes the code assign index 0 + 1 = 1, which already exists in the store and
differs from (max existing index) + 1 = 2 — so "maximum plus one" and
uniqueness both fail for arbitrary well-formed stores. -/
theorem claim5_cex_reversed_index_store :
    get_latest_index (storeAfterInsert (storeAfterInsert emptyStore
        (make_entry 1 2147483649 [] [] [] [])) (make_entry 0 2147483649 [] [] [] [])) + 1 = 1 ∧
    (0 :: strBytes "shortcuts" ++ [0]) ++ (make_entry 1 2147483649 [] [] [] [] ++
        (make_entry 0 2147483649 [] [] [] [] ++ [8, 8])) =
      storeAfterInsert (storeAfterInsert emptyStore
        (make_entry 1 2147483649 [] [] [] [])) (make_entry 0 2147483649 [] [] [] []) ∧
    (1 : Int) ≠ 2 := by
  have hM : (128 ≤ (2147483649 : Nat) / 16777216 % 256) ∧
      ¬(isDigitByte (2147483649 % 256) = true ∧ (2147483649 : Nat) / 256 % 256 = 0) ∧
      ¬(isDigitByte (2147483649 % 256) = true ∧ isDigitByte ((2147483649 : Nat) / 256 % 256) = true ∧
        (2147483649 : Nat) / 65536 % 256 = 0) ∧
      ¬((2147483649 : Nat) % 256 = 0 ∧ isDigitByte ((2147483649 : Nat) / 256 % 256) = true ∧
        (2147483649 : Nat) / 65536 % 256 = 0) := by decide
  obtain ⟨h3, hM1, hM2, hM3⟩ := hM
  have hnil : ∀ b ∈ ([] : List Nat), b ≠ 0 := by simp
  have hdn : ([] : List Nat) = [] ∨ ∃ c ∈ ([] : List Nat), isDigitByte c = false := Or.inl rfl
  have hsplit : emptyStore = emptyStore.dropLast.dropLast ++ [8, 8] := by decide
  have h1 := (insert_shortcut_wf emptyStore.dropLast.dropLast
    (make_entry 1 2147483649 [] [] [] [])).2
  have h2 := (insert_shortcut_wf (emptyStore.dropLast.dropLast ++ make_entry 1 2147483649 [] [] [] [])
    (make_entry 0 2147483649 [] [] [] [])).2
  have hstore : storeAfterInsert (storeAfterInsert emptyStore
      (make_entry 1 2147483649 [] [] [] [])) (make_entry 0 2147483649 [] [] [] []) =
      (emptyStore.dropLast.dropLast ++ make_entry 1 2147483649 [] [] [] []) ++
        make_entry 0 2147483649 [] [] [] [] ++ [8, 8] := by
    conv_lhs => rw [hsplit]
    rw [h1, h2]
  refine ⟨?_, ?_, by decide⟩
  · rw [hstore]
    have hassoc : (emptyStore.dropLast.dropLast ++ make_entry 1 2147483649 [] [] [] []) ++
        make_entry 0 2147483649 [] [] [] [] ++ [8, 8] =
        emptyStore.dropLast.dropLast ++ (make_entry 1 2147483649 [] [] [] [] ++
          (make_entry 0 2147483649 [] [] [] [] ++ [8, 8])) := by
      simp [List.append_assoc]
    rw [hassoc]
    have hscan : reFindall (emptyStore.dropLast.dropLast ++ (make_entry 1 2147483649 [] [] [] [] ++
        (make_entry 0 2147483649 [] [] [] [] ++ [8, 8]))) = [decDigits 1, decDigits 0] := by
      rw [reFindall_store_header _ (takeWhile_after_entry 1 2147483649 [] [] [] [] _),
        reFindall_entry 1 2147483649 [] [] [] [] _ h3 hM1 hM2 hM3 hnil hnil hnil hnil hdn hdn hdn,
        reFindall_entry 0 2147483649 [] [] [] [] _ h3 hM1 hM2 hM3 hnil hnil hnil hnil hdn hdn hdn]
      have h88 : reFindall [8, 8] = [] := by decide
      rw [h88]
    have hlast : ([decDigits 1, decDigits 0]).getLast? = some (decDigits 0) := rfl
    simp only [get_latest_index, hscan, hlast]
    rw [digitsVal_decDigits]
    rfl
  · rw [hstore]
    have hH : emptyStore.dropLast.dropLast = 0 :: strBytes "shortcuts" ++ [0] := by decide
    rw [hH]
    simp [List.append_assoc]

/-- The five artwork variants of `STEAMGRIDDB_IMAGES` (lines 46-52), in
dictionary insertion order: suffix bytes paired with URL bytes. -/
def STEAMGRIDDB_IMAGES : List (List Nat × List Nat) :=
  [(strBytes "p", strBytes "https://cdn2.steamgriddb.com/grid/a73027901f88055aaa0fd1a9e25d36c7.png"),
   ([], strBytes "https://cdn2.steamgriddb.com/grid/e353b610e9ce20f963b4cca5da565605.jpg"),
   (strBytes "_hero", strBytes "https://cdn2.steamgriddb.com/hero/ecd812da02543c0269cfc2c56ab3c3c0.png"),
   (strBytes "_logo", strBytes "https://cdn2.steamgriddb.com/logo/90915208c601cc8c86ad01250ee90c12.png"),
   (strBytes "_icon", strBytes "https://cdn2.steamgriddb.com/icon/add7a048049671970976f3e18f21ade3.ico")]

/-- Destination file name of line 129: `f"{appid}{suffix}.png"`, except
`.ico` when the URL ends in `.ico`. -/
def assetFileName (appid : Nat) (suffix url : List Nat) : List Nat :=
  if (strBytes ".ico").isSuffixOf url then decDigits appid ++ suffix ++ strBytes ".ico"
  else decDigits appid ++ suffix ++ strBytes ".png"

/-- Destination path of line 129: the grid directory joined with the file
name. -/
def assetPath (gridDir : List Nat) (appid : Nat) (v : List Nat × List Nat) : List Nat :=
  gridDir ++ strBytes "/" ++ assetFileName appid v.1 v.2

/-- The part of the filesystem the download loop touches: path-to-contents
pairs in creation order. -/
abbrev AssetFS := List (List Nat × List Nat)

/-- `os.path.exists` over the modelled filesystem. -/
def fileExistsFS (fs : AssetFS) (p : List Nat) : Bool := fs.any (fun e => e.1 == p)

/-- Per-variant outcome printed by the loop: skipped because cached, saved
after a successful download, or failed. -/
inductive VariantOutcome where
  | cached
  | saved
  | failed
deriving DecidableEq

/-- State threaded through the download loop: the filesystem, the
per-variant report in loop order, and how many network fetches happened. -/
structure SyncResult where
  fs : AssetFS
  report : List (List Nat × VariantOutcome)
  fetchCount : Nat
deriving DecidableEq

/-- One iteration of the download loop (lines 127-140): skip when the
destination exists; otherwise consult the network oracle `fetch` (which
returns the body bytes, or `none` for any fetch error) and write the file on
success; a failure is recorded and the loop continues. -/
def syncStep (fetch : List Nat → Option (List Nat)) (gridDir : List Nat) (appid : Nat)
    (st : SyncResult) (v : List Nat × List Nat) : SyncResult :=
  if fileExistsFS st.fs (assetPath gridDir appid v) then
    { st with report := st.report ++ [(v.1, VariantOutcome.cached)] }
  else
    match fetch v.2 with
    | some bytes =>
        { fs := st.fs ++ [(assetPath gridDir appid v, bytes)],
          report := st.report ++ [(v.1, VariantOutcome.saved)],
          fetchCount := st.fetchCount + 1 }
    | none =>
        { st with report := st.report ++ [(v.1, VariantOutcome.failed)],
                  fetchCount := st.fetchCount + 1 }

/-- The whole download loop over the five variants. -/
def sync_assets (fetch : List Nat → Option (List Nat)) (gridDir : List Nat)
    (appid : Nat) (fs : AssetFS) : SyncResult :=
  STEAMGRIDDB_IMAGES.foldl (syncStep fetch gridDir appid) ⟨fs, [], 0⟩

/-- Contents of the first file recorded at a path. -/
def lookupFS (fs : AssetFS) (p : List Nat) : Option (List Nat) :=
  (fs.find? (fun e => e.1 == p)).map (fun e => e.2)

/-- Outcome of one whole run: final store bytes, final grid filesystem and
process exit code. -/
structure ProgramResult where
  store : List Nat
  grid : AssetFS
  exitCode : Nat
deriving DecidableEq

/-- End-to-end flow of lines 83-140: compute the next index and the
identifier, insert the encoded record (exit code 1 and no writes when the
store is malformed), then run the download loop; download failures never
touch the store or the exit code. -/
def runProgram (fetch : List Nat → Option (List Nat)) (storeData : List Nat)
    (grid : AssetFS) (appname exe startdir configDir : List Nat) : ProgramResult :=
  match insert_shortcut storeData
      (make_entry ((get_latest_index storeData + 1).toNat) (hash_appid appname exe)
        appname exe startdir configDir) with
  | Except.ok newStore =>
      ⟨newStore,
       (sync_assets fetch (configDir ++ strBytes "/grid") (hash_appid appname exe) grid).fs,
       0⟩
  | Except.error _ => ⟨storeData, grid, 1⟩

/-- Appending files cannot make an existing path disappear. -/
theorem fileExistsFS_append (fs d : AssetFS) (p : List Nat)
    (h : fileExistsFS fs p = true) : fileExistsFS (fs ++ d) p = true := by
  simp only [fileExistsFS, List.any_append, Bool.or_eq_true]
  exact Or.inl h

/-- One loop iteration never removes an existing path. -/
theorem syncStep_exists_mono (fetch : List Nat → Option (List Nat))
    (gridDir : List Nat) (appid : Nat) (st : SyncResult) (v : List Nat × List Nat)
    (p : List Nat) (h : fileExistsFS st.fs p = true) :
    fileExistsFS (syncStep fetch gridDir appid st v).fs p = true := by
  by_cases hex : fileExistsFS st.fs (assetPath gridDir appid v)
  · simp [syncStep, hex, h]
  · cases hf : fetch v.2 with
    | some bytes =>
      simp only [syncStep, if_neg hex, hf]
      exact fileExistsFS_append st.fs _ p h
    | none =>
      simp only [syncStep, if_neg hex, hf]
      exact h

/-- The loop never removes an existing path. -/
theorem syncFold_exists_mono (fetch : List Nat → Option (List Nat))
    (gridDir : List Nat) (appid : Nat) :
    ∀ (vs : List (List Nat × List Nat)) (st : SyncResult) (p : List Nat),
      fileExistsFS st.fs p = true →
      fileExistsFS ((vs.foldl (syncStep fetch gridDir appid) st).fs) p = true := by
  intro vs
  induction vs with
  | nil => intro st p h; exact h
  | cons v vs ih =>
    intro st p h
    exact ih _ p (syncStep_exists_mono fetch gridDir appid st v p h)

/-- After an iteration whose fetch cannot fail, the variant's destination
exists. -/
theorem syncStep_ensures (fetch : List Nat → Option (List Nat))
    (gridDir : List Nat) (appid : Nat) (st : SyncResult) (v : List Nat × List Nat)
    (hf : (fetch v.2).isSome = true) :
    fileExistsFS (syncStep fetch gridDir appid st v).fs (assetPath gridDir appid v) = true := by
  by_cases hex : fileExistsFS st.fs (assetPath gridDir appid v)
  · simp [syncStep, hex]
  · cases hfv : fetch v.2 with
    | some bytes =>
      simp only [syncStep, if_neg hex, hfv]
      simp [fileExistsFS, List.any_append]
    | none => rw [hfv] at hf; simp at hf

/-- After a loop in which no fetch fails, every variant's destination
exists. -/
theorem syncFold_ensures (fetch : List Nat → Option (List Nat))
    (gridDir : List Nat) (appid : Nat) :
    ∀ (vs : List (List Nat × List Nat)) (st : SyncResult),
      (∀ v ∈ vs, (fetch v.2).isSome = true) →
      ∀ v ∈ vs,
        fileExistsFS ((vs.foldl (syncStep fetch gridDir appid) st).fs)
          (assetPath gridDir appid v) = true := by
  intro vs
  induction vs with
  | nil => intro st h v hv; simp at hv
  | cons w vs ih =>
    intro st h v hv
    rcases List.mem_cons.mp hv with rfl | hv
    · exact syncFold_exists_mono fetch gridDir appid vs _ _
        (syncStep_ensures fetch gridDir appid st v (h v (by simp)))
    · exact ih _ (fun u hu => h u (by simp [hu])) v hv

/-- A loop over variants that are all already present fetches nothing and
writes nothing. -/
theorem syncFold_all_cached (fetch : List Nat → Option (List Nat))
    (gridDir : List Nat) (appid : Nat) :
    ∀ (vs : List (List Nat × List Nat)) (st : SyncResult),
      (∀ v ∈ vs, fileExistsFS st.fs (assetPath gridDir appid v) = true) →
      (vs.foldl (syncStep fetch gridDir appid) st).fetchCount = st.fetchCount ∧
      (vs.foldl (syncStep fetch gridDir appid) st).fs = st.fs := by
  intro vs
  induction vs with
  | nil => intro st h; exact ⟨rfl, rfl⟩
  | cons w vs ih =>
    intro st h
    have hw : fileExistsFS st.fs (assetPath gridDir appid w) = true := h w (by simp)
    have hstep : syncStep fetch gridDir appid st w =
        { st with report := st.report ++ [(w.1, VariantOutcome.cached)] } := by
      simp [syncStep, hw]
    rw [List.foldl_cons, hstep]
    exact ih _ (fun u hu => h u (by simp [hu]))

/-- One loop iteration only appends to the filesystem. -/
theorem syncStep_fs_append (fetch : List Nat → Option (List Nat))
    (gridDir : List Nat) (appid : Nat) (st : SyncResult) (v : List Nat × List Nat) :
    ∃ d, (syncStep fetch gridDir appid st v).fs = st.fs ++ d := by
  by_cases hex : fileExistsFS st.fs (assetPath gridDir appid v)
  · exact ⟨[], by simp [syncStep, hex]⟩
  · cases hf : fetch v.2 with
    | some bytes =>
      exact ⟨[(assetPath gridDir appid v, bytes)], by simp only [syncStep, if_neg hex, hf]⟩
    | none => exact ⟨[], by simp only [syncStep, if_neg hex, hf]; simp⟩

/-- The loop only appends to the filesystem. -/
theorem syncFold_fs_append (fetch : List Nat → Option (List Nat))
    (gridDir : List Nat) (appid : Nat) :
    ∀ (vs : List (List Nat × List Nat)) (st : SyncResult),
      ∃ d, (vs.foldl (syncStep fetch gridDir appid) st).fs = st.fs ++ d := by
  intro vs
  induction vs with
  | nil => intro st; exact ⟨[], by simp⟩
  | cons w vs ih =>
    intro st
    obtain ⟨d1, h1⟩ := syncStep_fs_append fetch gridDir appid st w
    obtain ⟨d2, h2⟩ := ih (syncStep fetch gridDir appid st w)
    exact ⟨d1 ++ d2, by rw [List.foldl_cons, h2, h1, List.append_assoc]⟩

/-- Lookup at an existing path is unaffected by appended files. -/
theorem lookupFS_append_of_found (fs d : AssetFS) (p : List Nat)
    (h : fileExistsFS fs p = true) : lookupFS (fs ++ d) p = lookupFS fs p := by
  have hsome : (fs.find? (fun e => e.1 == p)).isSome = true := by
    rw [List.find?_isSome]
    simp only [fileExistsFS, List.any_eq_true] at h
    exact h
  cases hf : fs.find? (fun e => e.1 == p) with
  | none => rw [hf] at hsome; simp at hsome
  | some x => simp [lookupFS, List.find?_append, hf]

/-- The loop emits exactly one report entry per variant, labelled by the
variant's suffix, in loop order. -/
theorem syncFold_report (fetch : List Nat → Option (List Nat))
    (gridDir : List Nat) (appid : Nat) :
    ∀ (vs : List (List Nat × List Nat)) (st : SyncResult),
      ((vs.foldl (syncStep fetch gridDir appid) st).report).map Prod.fst =
        st.report.map Prod.fst ++ vs.map Prod.fst := by
  intro vs
  induction vs with
  | nil => intro st; simp
  | cons w vs ih =>
    intro st
    rw [List.foldl_cons]
    have hone : ((syncStep fetch gridDir appid st w).report).map Prod.fst =
        st.report.map Prod.fst ++ [w.1] := by
      by_cases hex : fileExistsFS st.fs (assetPath gridDir appid w)
      · simp [syncStep, hex]
      · cases hf : fetch w.2 with
        | some bytes => simp [syncStep, hex, hf]
        | none => simp [syncStep, hex, hf]
    rw [ih, hone]
    simp

/-- Claim C8 (amended): a variant whose destination file already exists is
skipped without fetching or writing; provided every variant's fetch
succeeds, calling `sync_assets` twice with the same identifier and
destination performs zero network fetches on the second call; and a
pre-existing file's contents are never overwritten.  (The counterexample
shows the unamended second-call property fails when fetches fail.) -/
theorem claim8_sync_idempotent :
    ∀ (fetch : List Nat → Option (List Nat)) (gridDir : List Nat) (appid : Nat)
      (fs : AssetFS),
      (∀ v ∈ STEAMGRIDDB_IMAGES, (fetch v.2).isSome = true) →
      (∀ st v, fileExistsFS st.fs (assetPath gridDir appid v) = true →
        syncStep fetch gridDir appid st v =
          { st with report := st.report ++ [(v.1, VariantOutcome.cached)] }) ∧
      (sync_assets fetch gridDir appid
        ((sync_assets fetch gridDir appid fs).fs)).fetchCount = 0 ∧
      (∀ p, fileExistsFS fs p = true →
        lookupFS ((sync_assets fetch gridDir appid fs).fs) p = lookupFS fs p) := by
  intro fetch gridDir appid fs hall
  refine ⟨?_, ?_, ?_⟩
  · intro st v hex
    simp [syncStep, hex]
  · have hens : ∀ v ∈ STEAMGRIDDB_IMAGES,
        fileExistsFS ((sync_assets fetch gridDir appid fs).fs)
          (assetPath gridDir appid v) = true :=
      syncFold_ensures fetch gridDir appid STEAMGRIDDB_IMAGES ⟨fs, [], 0⟩ hall
    exact (syncFold_all_cached fetch gridDir appid STEAMGRIDDB_IMAGES
      ⟨(sync_assets fetch gridDir appid fs).fs, [], 0⟩ hens).1
  · intro p hp
    obtain ⟨d, hd⟩ := syncFold_fs_append fetch gridDir appid STEAMGRIDDB_IMAGES ⟨fs, [], 0⟩
    rw [sync_assets, hd]
    exact lookupFS_append_of_found fs d p hp

/-- Witness for C8 with an always-succeeding oracle, grid directory "g",
identifier 1 and an empty filesystem: the second call fetches nothing. -/
theorem claim8_sync_idempotent_witness :
    (sync_assets (fun _ => some []) (strBytes "g") 1
      ((sync_assets (fun _ => some []) (strBytes "g") 1 []).fs)).fetchCount = 0 :=
  (claim8_sync_idempotent (fun _ => some []) (strBytes "g") 1 [] (by decide)).2.1

/-- Claim C8, counterexample: with an oracle that always fails, the first
call caches nothing, so the second call performs five network fetches, not
zero — "calling sync_assets twice performs zero fetches on the second call"
is false as stated when fetches can fail. -/
theorem claim8_cex_failed_fetches_again :
    (sync_assets (fun _ => none) (strBytes "g") 1
      ((sync_assets (fun _ => none) (strBytes "g") 1 []).fs)).fetchCount = 5 ∧
    (5 : Nat) ≠ 0 := by
  constructor
  · decide
  · decide

/-- Claim C9: the download loop emits one report entry per variant in loop
order whatever the oracle does (a failure never aborts the remaining
variants); a variant whose fetch fails is recorded as failed, with nothing
written and the loop state otherwise advanced; and the final store bytes and
the process exit code do not depend on the network oracle at all — asset
failures neither roll back the completed store mutation nor change the exit
code. -/
theorem claim9_asset_failures_isolated :
    (∀ (fetch : List Nat → Option (List Nat)) (gridDir : List Nat) (appid : Nat)
       (fs : AssetFS),
       ((sync_assets fetch gridDir appid fs).report).map Prod.fst =
         STEAMGRIDDB_IMAGES.map Prod.fst) ∧
    (∀ (fetch : List Nat → Option (List Nat)) (gridDir : List Nat) (appid : Nat)
       (st : SyncResult) (v : List Nat × List Nat),
       fileExistsFS st.fs (assetPath gridDir appid v) = false → fetch v.2 = none →
       syncStep fetch gridDir appid st v =
         { st with report := st.report ++ [(v.1, VariantOutcome.failed)],
                   fetchCount := st.fetchCount + 1 }) ∧
    (∀ (fetch fetch' : List Nat → Option (List Nat)) (storeData : List Nat)
       (grid : AssetFS) (appname exe startdir configDir : List Nat),
       (runProgram fetch storeData grid appname exe startdir configDir).store =
         (runProgram fetch' storeData grid appname exe startdir configDir).store ∧
       (runProgram fetch storeData grid appname exe startdir configDir).exitCode =
         (runProgram fetch' storeData grid appname exe startdir configDir).exitCode) := by
  refine ⟨?_, ?_, ?_⟩
  · intro fetch gridDir appid fs
    have h := syncFold_report fetch gridDir appid STEAMGRIDDB_IMAGES ⟨fs, [], 0⟩
    simpa [sync_assets] using h
  · intro fetch gridDir appid st v hex hf
    simp only [syncStep, hf]
    rw [if_neg (by rw [hex]; exact Bool.false_ne_true)]
  · intro fetch fetch' storeData grid appname exe startdir configDir
    cases h : insert_shortcut storeData
        (make_entry ((get_latest_index storeData + 1).toNat) (hash_appid appname exe)
          appname exe startdir configDir) with
    | ok newStore => constructor <;> simp [runProgram, h]
    | error e => constructor <;> simp [runProgram, h]

/-- Witness for C9: a failing fetch for the portrait variant on an empty
filesystem is recorded as failed with one fetch counted and no file
written. -/
theorem claim9_asset_failures_isolated_witness :
    syncStep (fun _ => none) (strBytes "g") 1 ⟨[], [], 0⟩
        (strBytes "p", strBytes "u") =
      { fs := [], report := [(strBytes "p", VariantOutcome.failed)], fetchCount := 1 } :=
  claim9_asset_failures_isolated.2.1 (fun _ => none) (strBytes "g") 1 ⟨[], [], 0⟩
    (strBytes "p", strBytes "u") (by decide) rfl

end AddToSteam
